import Mathlib

/-!
Verification development for the `graph_builder` repository.

The definitions below are a shallow embedding of `src/utils.py`,
`src/schema.py` and `src/graph_builder.py`.  Python dictionaries are
modelled as insertion-ordered association lists (matching CPython's
insertion-order preservation, including value update in place keeping the
key's position).  Python objects mutated in place are modelled by
replacing the value stored under the corresponding dictionary key; in the
source every `Node`/`Edge` object is referenced by exactly one dictionary
entry at a time, so this is faithful.  A bare `dict[k]` lookup that would
raise `KeyError` in Python is modelled by `Option`: `build_graph` returns
`none` exactly when the Python function would raise.  Attribute values
(`Any` in Python) are modelled by the `PyVal` type, which covers every
value the pipeline itself stores (`None`, ints, strings, lists of
strings); `page` numbers are modelled as `Int`.
-/

/-- Python attribute values used by the pipeline (`None`, int, str, list of str). -/
inductive PyVal where
  | vnone : PyVal
  | vint : Int → PyVal
  | vstr : String → PyVal
  | vstrlist : List String → PyVal
  deriving Repr, DecidableEq

/-- Insertion-ordered dictionary (CPython `dict`). -/
abbrev PyDict (α β : Type) : Type := List (α × β)

/-- `d.get(k)` / `d[k]` lookup. -/
def dictGet {α β : Type} [DecidableEq α] (d : PyDict α β) (k : α) : Option β :=
  match d with
  | [] => none
  | (k', v) :: rest => if k' = k then some v else dictGet rest k

/-- `d[k] = v`: update in place (key keeps its position) or append a new key. -/
def dictSet {α β : Type} [DecidableEq α] (d : PyDict α β) (k : α) (v : β) : PyDict α β :=
  match d with
  | [] => [(k, v)]
  | (k', v') :: rest => if k' = k then (k', v) :: rest else (k', v') :: dictSet rest k v

/-- `list(d.keys())`. -/
def dictKeys {α β : Type} (d : PyDict α β) : List α := d.map Prod.fst

/-- `list(d.values())`. -/
def dictValues {α β : Type} (d : PyDict α β) : List β := d.map Prod.snd

/-- `d.update(other)`: fold `d[k] = v` over the entries of `other`. -/
def dictUpdate {α β : Type} [DecidableEq α] (d other : PyDict α β) : PyDict α β :=
  other.foldl (fun acc p => dictSet acc p.1 p.2) d

/-- Attribute map of a node (`Dict[str, Any]`). -/
abbrev Attrs : Type := PyDict String PyVal

/-- A provenance record `{"chunk_id": ..., "page": ...}` (src/schema.py sources). -/
structure Src where
  chunk_id : String
  page : Int
  deriving Repr, DecidableEq

/-- `src/schema.py` `Node`. -/
structure Node where
  id : String
  type : String
  label : String
  attributes : Attrs
  sources : List Src
  deriving Repr, DecidableEq

/-- `src/schema.py` `Edge`. -/
structure Edge where
  from_id : String
  to_id : String
  relation : String
  sources : List Src
  deriving Repr, DecidableEq

/-- `src/schema.py` `Graph`. -/
structure Graph where
  nodes : List Node
  edges : List Edge
  deriving Repr, DecidableEq

/-- The `(from_id, to_id, relation)` key of an edge. -/
abbrev EdgeKey : Type := String × String × String

/-- The key triple of an edge. -/
def Edge.core (e : Edge) : EdgeKey := (e.from_id, e.to_id, e.relation)

/-! ## src/utils.py -/

/-- `CONTROLLED_RELATIONS` (src/utils.py, lines 7-11).  A Python `set`
used only for membership tests, modelled as a list. -/
def CONTROLLED_RELATIONS : List String :=
  ["operates", "offers", "enabled_by", "supported_by", "includes",
   "integrated_with", "executed_via", "acquired", "launched",
   "has_event", "described_in", "partnered_with"]

/-- ASCII lowercase letter or digit (the character class `[a-z0-9]`). -/
def isLowerAlnum (c : Char) : Bool :=
  (('a' ≤ c) && (c ≤ 'z')) || (('0' ≤ c) && (c ≤ '9'))

/-- Python `str.lower()` (ASCII case mapping, like `String.toLower`). -/
def pyLower (s : String) : String := ⟨s.toList.map Char.toLower⟩

/-- Python `str.strip()`: drop leading and trailing whitespace. -/
def pyTrim (s : String) : String :=
  ⟨((s.toList.dropWhile Char.isWhitespace).reverse.dropWhile Char.isWhitespace).reverse⟩

/-- Python `<` on strings: lexicographic comparison by code point. -/
def strListLt : List Char → List Char → Bool
  | [], [] => false
  | [], _ :: _ => true
  | _ :: _, [] => false
  | a :: as, b :: bs =>
    if a.toNat < b.toNat then true
    else if b.toNat < a.toNat then false
    else strListLt as bs

/-- Python `<` on strings, as a Bool. -/
def strLt (a b : String) : Bool := strListLt a.toList b.toList

/-- Python `<=` on strings, as a Bool. -/
def strLe (a b : String) : Bool := strLt a b || decide (a = b)

/-- `normalize_for_comparison` (src/utils.py): lowercase, keep only `[a-z0-9]`. -/
def normalize_for_comparison (name : String) : String :=
  if name = "" then ""
  else ⟨(pyLower name).toList.filter isLowerAlnum⟩

/-- Substring containment on character lists (Python `in` on strings). -/
def containsSub (hay needle : List Char) : Bool :=
  match hay with
  | [] => needle.isEmpty
  | _ :: rest => needle.isPrefixOf hay || containsSub rest needle

/-- `is_alias` (src/utils.py): equal normalized forms, or substring
containment with the shorter normalized form of length ≥ 4. -/
def is_alias (name1 name2 : String) : Bool :=
  if name1 = "" || name2 = "" then false
  else
    let norm1 := normalize_for_comparison name1
    let norm2 := normalize_for_comparison name2
    if norm1 = norm2 then true
    else if containsSub norm2.toList norm1.toList || containsSub norm1.toList norm2.toList then
      min norm1.length norm2.length ≥ 4
    else false

/-- The `invalid_patterns` set of `is_invalid_entity_name`. -/
def invalid_patterns : List String :=
  ["founded", "launched", "rolled out", "focuses on", "established",
   "created", "started", "began", "introduced", "announced",
   "provides", "offers", "delivers", "enables", "supports"]

/-- The `verb_prefixes` list of `is_invalid_entity_name`. -/
def verb_prefixes : List String :=
  ["founded", "launched", "rolled", "focuses", "established"]

/-- `is_invalid_entity_name` (src/utils.py). -/
def is_invalid_entity_name (name : String) : Bool :=
  if name = "" || name.length < 3 then true
  else
    let lower := pyTrim (pyLower name)
    if invalid_patterns.contains lower then true
    else verb_prefixes.any (fun v => v.toList.isPrefixOf lower.toList)

/-- Case-insensitive literal prefix match; returns the remaining characters. -/
def ciDropWord (cs : List Char) (w : List Char) : Option (List Char) :=
  match w, cs with
  | [], _ => some cs
  | _ :: _, [] => none
  | wc :: wrest, c :: crest => if c.toLower = wc then ciDropWord crest wrest else none

/-- Matches `\.?…\.?\s*$` with at most `maxDots` optional leading dots. -/
def matchDotsWs (cs : List Char) (maxDots : Nat) : Bool :=
  match maxDots, cs with
  | _, [] => true
  | 0, cs => cs.all Char.isWhitespace
  | n + 1, c :: rest => if c = '.' then matchDotsWs rest n else (c :: rest).all Char.isWhitespace

/-- The alternatives of the suffix regex
`\s+(?:Inc\.?|Corp\.?|LLC|Ltd\.?|Co\.?|Corporation)\.?$` together with the
maximal number of optional dots each alternative may consume (its own
`\.?` plus the outer `\.?`). -/
def legalSuffixAlts : List (List Char × Nat) :=
  [("inc".toList, 2), ("corp".toList, 2), ("llc".toList, 1),
   ("ltd".toList, 2), ("co".toList, 2), ("corporation".toList, 1)]

/-- Does `\s+(?:Inc\.?|…)\.?\s*$` match starting exactly here? -/
def legalSuffixHere (cs : List Char) : Bool :=
  match cs with
  | [] => false
  | c :: _ =>
    if c.isWhitespace then
      let rest := cs.dropWhile Char.isWhitespace
      legalSuffixAlts.any (fun p =>
        match ciDropWord rest p.1 with
        | some r => matchDotsWs r p.2
        | none => false)
    else false

/-- Remove the leftmost match of the anchored suffix pattern (re.sub with
an end-anchored pattern removes from the leftmost matching position to the
end of the string). -/
def stripLegalSuffix (cs : List Char) : List Char :=
  match cs with
  | [] => []
  | c :: rest => if legalSuffixHere (c :: rest) then [] else c :: stripLegalSuffix rest

/-- `normalize_entity_label` (src/utils.py): strip a trailing legal-entity
suffix (Inc/Corp/LLC/Ltd/Co/Corporation), case-insensitively. -/
def normalize_entity_label (name : String) : String :=
  if name = "" then ""
  else
    let stripped := pyTrim name
    pyTrim (String.mk (stripLegalSuffix stripped.toList))

/-- `normalize_name` (src/utils.py): lowercase, strip, map every character
outside `[a-z0-9]` to an underscore. -/
def normalize_name (name : String) : String :=
  ⟨(pyTrim (pyLower name)).toList.map (fun c => if isLowerAlnum c then c else '_')⟩

/-- `generate_id` (src/utils.py). -/
def generate_id (label node_type : String) : String :=
  pyLower node_type ++ "_" ++ normalize_name label

/-- Sort key order used by `choose_best_label`: longer first, ties
alphabetically ascending. -/
def bestLabelLe (a b : String) : Bool :=
  if a.length = b.length then strLe a b else decide (b.length < a.length)

/-- `choose_best_label` (src/utils.py): most descriptive label — longest,
ties broken alphabetically. -/
def choose_best_label (labels : List String) : String :=
  match labels with
  | [] => ""
  | [l] => l
  | ls => ((ls.insertionSort (fun a b => bestLabelLe a b = true)).headD "")

/-! ## src/graph_builder.py : normalize_graph (lines 214-360) -/

/-- The Python provenance-merge pattern
`for src in new: if src not in dst: dst.append(src)`. -/
def addAbsentSrcs (dst ns : List Src) : List Src :=
  ns.foldl (fun acc s => if s ∈ acc then acc else acc ++ [s]) dst

/-- First-occurrence deduplication of source records keyed by
`(chunk_id, page)` (the `unique_sources` loops). -/
def dedupSourcesAux (srcs : List Src) (acc : List Src) (seen : List (String × Int)) : List Src :=
  match srcs with
  | [] => acc
  | s :: rest =>
    if (s.chunk_id, s.page) ∈ seen then dedupSourcesAux rest acc seen
    else dedupSourcesAux rest (acc ++ [s]) (seen ++ [(s.chunk_id, s.page)])

/-- First-occurrence deduplication of source records. -/
def dedupSources (srcs : List Src) : List Src := dedupSourcesAux srcs [] []

/-- Inner scan of normalize_graph step 2: collect the aliases of `node`
among the nodes after it, marking each one processed as it is found. -/
def collectAliases (node : Node) (rest : List Node) (processed : List String) :
    List Node × List String :=
  match rest with
  | [] => ([], processed)
  | other :: tl =>
    if other.id ∈ processed then collectAliases node tl processed
    else if other.type = node.type ∧ is_alias node.label other.label then
      let res := collectAliases node tl (processed ++ [other.id])
      (other :: res.1, res.2)
    else collectAliases node tl processed

/-- normalize_graph step 2 (alias merge): produce the merged node list and
the old-id → new-id map. -/
def aliasMergeLoop : List Node → List String → PyDict String String →
    List Node × PyDict String String
  | [], _, node_map => ([], node_map)
  | node :: rest, processed, node_map =>
    if node.id ∈ processed then aliasMergeLoop rest processed node_map
    else
      let collected := collectAliases node rest processed
      let aliases := node :: collected.1
      if aliases.length > 1 then
        let best_label := choose_best_label (aliases.map Node.label)
        let all_sources := aliases.foldl (fun acc a => acc ++ a.sources) []
        let unique_sources := dedupSources all_sources
        let merged : Node :=
          ⟨generate_id best_label node.type, node.type, best_label,
           node.attributes, unique_sources⟩
        let node_map' := aliases.foldl (fun m a => dictSet m a.id merged.id) node_map
        let res := aliasMergeLoop rest (collected.2 ++ [node.id]) node_map'
        (merged :: res.1, res.2)
      else
        let res := aliasMergeLoop rest (collected.2 ++ [node.id]) (dictSet node_map node.id node.id)
        (node :: res.1, res.2)

/-- normalize_graph step 3: re-point edges through the alias map, dropping
edges whose endpoints were removed, self-loops, and edges with a relation
outside the controlled vocabulary. -/
def rewriteEdgesNorm (node_map : PyDict String String) (edges : List Edge) : List Edge :=
  edges.filterMap (fun edge =>
    let new_from := (dictGet node_map edge.from_id).getD edge.from_id
    let new_to := (dictGet node_map edge.to_id).getD edge.to_id
    if new_from ∉ dictValues node_map ∨ new_to ∉ dictValues node_map then none
    else if new_from = new_to then none
    else if edge.relation ∉ CONTROLLED_RELATIONS then none
    else some ⟨new_from, new_to, edge.relation, edge.sources⟩)

/-- Ids of the Event nodes (`event_nodes` in steps 4). -/
def eventNodeIds (nodes : List Node) : List String :=
  (nodes.filter (fun n => decide (n.type = "Event"))).map Node.id

/-- normalize_graph step 4: the set of `(company, target, relation)`
triples mediated by an Event node. -/
def eventMediated (event_nodes : List String) (edges : List Edge) : List EdgeKey :=
  (edges.filter (fun e =>
      decide (e.from_id ∈ event_nodes ∧ (e.relation = "launched" ∨ e.relation = "acquired")))).flatMap
    (fun edge =>
      (edges.filter (fun e2 => decide (e2.to_id = edge.from_id ∧ e2.relation = "has_event"))).map
        (fun e2 => (e2.from_id, edge.to_id, edge.relation)))

/-- Merge a duplicate edge's sources into the existing edge
(add-if-absent, in order). -/
def mergeEdgeSources (existing e : Edge) : Edge :=
  { existing with sources := addAbsentSrcs existing.sources e.sources }

/-- normalize_graph step 5 (also the dedup loop of normalize_llm_graph):
fold edges into a dict keyed by `(from_id, to_id, relation)`, merging the
sources of a repeated key into the existing edge. -/
def dedupEdges (d : PyDict EdgeKey Edge) : List Edge → PyDict EdgeKey Edge
  | [] => d
  | e :: rest =>
    let key := e.core
    let d' := if (dictGet d key).isSome
      then d.map (fun p => if p.1 = key then (p.1, mergeEdgeSources p.2 e) else p)
      else d ++ [(key, e)]
    dedupEdges d' rest

/-- Python `<=` on a triple of strings (lexicographic tuple comparison,
as used by `sorted(…, key=…)`). -/
def tripleLe (x y : String × String × String) : Bool :=
  if x.1 = y.1 then
    (if x.2.1 = y.2.1 then strLe x.2.2 y.2.2 else strLt x.2.1 y.2.1)
  else strLt x.1 y.1

/-- Lexicographic order on the node sort key `(type, label, id)`. -/
def nodeSortLe (a b : Node) : Bool :=
  tripleLe (a.type, a.label, a.id) (b.type, b.label, b.id)

/-- Lexicographic order on the edge sort key `(from_id, relation, to_id)`. -/
def edgeSortLe (a b : Edge) : Bool :=
  tripleLe (a.from_id, a.relation, a.to_id) (b.from_id, b.relation, b.to_id)

/-- `sorted(nodes, key=lambda n: (n.type, n.label, n.id))`: a stable
sort, modelled by insertion sort (stable for a total preorder, hence
equal to Python Timsort output). -/
def sortNodes (ns : List Node) : List Node :=
  ns.insertionSort (fun a b => nodeSortLe a b = true)

/-- `sorted(edges, key=lambda e: (e.from_id, e.relation, e.to_id))`. -/
def sortEdges (es : List Edge) : List Edge :=
  es.insertionSort (fun a b => edgeSortLe a b = true)

/-- normalize_graph step 1: filter out invalid entities (Source nodes are
always kept). -/
def normValidNodes (graph : Graph) : List Node :=
  graph.nodes.filter
    (fun node => decide (node.type = "Source") || !(is_invalid_entity_name node.label))

/-- normalize_graph step 2 applied to the surviving nodes: `merged_nodes`
and `node_map`. -/
def normMerged (graph : Graph) : List Node × PyDict String String :=
  aliasMergeLoop (normValidNodes graph) [] []

/-- normalize_graph step 3 output (`updated_edges`). -/
def normUpdatedEdges (graph : Graph) : List Edge :=
  rewriteEdgesNorm (normMerged graph).2 graph.edges

/-- normalize_graph step 4 output (`final_edges`). -/
def normFinalEdges (graph : Graph) : List Edge :=
  (normUpdatedEdges graph).filter
    (fun e => decide (e.core ∉ eventMediated (eventNodeIds (normMerged graph).1)
      (normUpdatedEdges graph)))

/-- `normalize_graph` (src/graph_builder.py, lines 214-360): the six
normalization steps, each written out above as a named stage. -/
def normalize_graph (graph : Graph) : Graph :=
  ⟨sortNodes (normMerged graph).1,
   sortEdges (dictValues (dedupEdges [] (normFinalEdges graph)))⟩

/-! ## src/graph_builder.py : normalize_llm_graph (lines 11-211) -/

/-- Inner scan of FIX 1: collect the services similar to `service` among
the service nodes after it, marking each one processed. -/
def collectServiceAliases (service : Node) (rest : List Node) (processed : List String) :
    List Node × List String :=
  match rest with
  | [] => ([], processed)
  | other :: tl =>
    if other.id ∈ processed then collectServiceAliases service tl processed
    else if is_alias service.label other.label then
      let res := collectServiceAliases service tl (processed ++ [other.id])
      (other :: res.1, res.2)
    else collectServiceAliases service tl processed

/-- FIX 1 of normalize_llm_graph: merge similar Service nodes; returns the
merged service list and the old-id → new-id map. -/
def serviceMergeLoop : List Node → List String → PyDict String String →
    List Node × PyDict String String
  | [], _, m => ([], m)
  | service :: rest, processed, m =>
    if service.id ∈ processed then serviceMergeLoop rest processed m
    else
      let collected := collectServiceAliases service rest processed
      let similar := service :: collected.1
      if similar.length > 1 then
        let best_label := choose_best_label (similar.map Node.label)
        let all_sources := similar.foldl (fun acc s => acc ++ s.sources) []
        let unique_sources := dedupSources all_sources
        let merged : Node :=
          ⟨generate_id best_label "Service", "Service", best_label,
           service.attributes, unique_sources⟩
        let m' := similar.foldl (fun mm s => dictSet mm s.id merged.id) m
        let res := serviceMergeLoop rest (collected.2 ++ [service.id]) m'
        (merged :: res.1, res.2)
      else
        let res := serviceMergeLoop rest (collected.2 ++ [service.id]) (dictSet m service.id service.id)
        (service :: res.1, res.2)

/-- Edge rewrite after FIX 1: re-point endpoints through the service map,
dropping only self-loops. -/
def rewriteEdgesService (service_map : PyDict String String) (edges : List Edge) : List Edge :=
  edges.filterMap (fun edge =>
    let new_from := (dictGet service_map edge.from_id).getD edge.from_id
    let new_to := (dictGet service_map edge.to_id).getD edge.to_id
    if new_from = new_to then none
    else some ⟨new_from, new_to, edge.relation, edge.sources⟩)

/-- FIX 2 preparation: map each edge source endpoint to the set of its
outgoing relation names (a Python `set`, modelled as a duplicate-free
list built add-if-absent). -/
def entityRelations (edges : List Edge) : PyDict String (List String) :=
  edges.foldl (fun m e =>
    let cur := (dictGet m e.from_id).getD []
    dictSet m e.from_id (if e.relation ∈ cur then cur else cur ++ [e.relation])) []

/-- FIX 2 of normalize_llm_graph: reclassify a Company node whose
outgoing business relations are exactly `{partnered_with}` as a Partner.
The Python set equality `business_relations == {"partnered_with"}` is the
list equality below because the relation list is duplicate-free. -/
def reclassifyLoop : List Node → PyDict String (List String) → PyDict String String →
    List Node × PyDict String String
  | [], _, m => ([], m)
  | node :: rest, er, m =>
    if node.type = "Company" then
      let relations := (dictGet er node.id).getD []
      let business_relations := relations.filter
        (fun r => decide (r ≠ "described_in" ∧ r ≠ "has_event"))
      if business_relations = ["partnered_with"] then
        let new_node : Node :=
          ⟨generate_id node.label "Partner", "Partner", node.label,
           node.attributes, node.sources⟩
        let res := reclassifyLoop rest er (dictSet m node.id new_node.id)
        (new_node :: res.1, res.2)
      else
        let res := reclassifyLoop rest er (dictSet m node.id node.id)
        (node :: res.1, res.2)
    else
      let m' := if (dictGet m node.id).isSome then m else dictSet m node.id node.id
      let res := reclassifyLoop rest er m'
      (node :: res.1, res.2)

/-- Edge rewrite after FIX 2: re-point endpoints through the reclass map,
dropping edges whose endpoints do not exist and self-loops. -/
def rewriteEdgesReclass (node_type_map : PyDict String String) (edges : List Edge) : List Edge :=
  edges.filterMap (fun edge =>
    let new_from := (dictGet node_type_map edge.from_id).getD edge.from_id
    let new_to := (dictGet node_type_map edge.to_id).getD edge.to_id
    if new_from ∉ dictValues node_type_map ∨ new_to ∉ dictValues node_type_map then none
    else if new_from = new_to then none
    else some ⟨new_from, new_to, edge.relation, edge.sources⟩)

/-- FIX 1 of normalize_llm_graph applied to the graph's Service nodes:
`merged_services` and `service_map`. -/
def llmServiceStage (graph : Graph) : List Node × PyDict String String :=
  serviceMergeLoop (graph.nodes.filter (fun n => decide (n.type = "Service"))) [] []

/-- Node list after FIX 1 (non-services in order, then merged services). -/
def llmNodes1 (graph : Graph) : List Node :=
  graph.nodes.filter (fun n => decide (n.type ≠ "Service")) ++ (llmServiceStage graph).1

/-- Edge list after FIX 1. -/
def llmEdges1 (graph : Graph) : List Edge :=
  rewriteEdgesService (llmServiceStage graph).2 graph.edges

/-- FIX 2 of normalize_llm_graph: `reclassified_nodes` and `node_type_map`. -/
def llmReclass (graph : Graph) : List Node × PyDict String String :=
  reclassifyLoop (llmNodes1 graph) (entityRelations (llmEdges1 graph)) []

/-- Edge list after FIX 2. -/
def llmEdges2 (graph : Graph) : List Edge :=
  rewriteEdgesReclass (llmReclass graph).2 (llmEdges1 graph)

/-- Edge list after FIX 3 (event-first enforcement). -/
def llmFinalEdges (graph : Graph) : List Edge :=
  (llmEdges2 graph).filter
    (fun e => decide (e.core ∉ eventMediated (eventNodeIds (llmReclass graph).1)
      (llmEdges2 graph)))

/-- `normalize_llm_graph` (src/graph_builder.py, lines 11-211): the three
LLM-specific fixes, then edge dedup and the deterministic sort. -/
def normalize_llm_graph (graph : Graph) : Graph :=
  ⟨sortNodes (llmReclass graph).1,
   sortEdges (dictValues (dedupEdges [] (llmFinalEdges graph)))⟩

/-! ## src/graph_builder.py : build_graph (lines 363-582) -/

/-- One entity record of the extractor output contract (§6 of the spec):
`{"name": str, "type": str, "attributes": dict}`.  The Python defaults
`ent.get("type", "Entity")` / `ent.get("attributes", {})` are supplied by
the caller when a field is missing. -/
structure EntityRec where
  name : String
  type : String
  attributes : Attrs
  deriving Repr, DecidableEq

/-- One relation record: `{"from": str, "to": str, "relation": str}`
(`from`/`to` are Lean keywords, hence the underscores). -/
structure RelationRec where
  from_ : String
  to_ : String
  relation : String
  deriving Repr, DecidableEq

/-- One event record; fields read with `ev.get(...)` are `Option`s. -/
structure EventRec where
  name : String
  type : Option String
  year : Option Int
  company : Option String
  related_to : Option String
  tags : List String
  deriving Repr, DecidableEq

/-- One extraction record (`ext.get("entities"/"relations"/"events", [])`
treats a missing list as empty). -/
structure Extraction where
  entities : List EntityRec
  relations : List RelationRec
  events : List EventRec
  deriving Repr, DecidableEq

/-- One `(chunk_id, page, extraction)` input tuple of build_graph. -/
abbrev ExtractionTuple : Type := String × Int × Extraction

/-- Python truthiness of an optional string (`None` and `""` are falsy). -/
def truthyStr : Option String → Option String
  | some s => if s = "" then none else some s
  | none => none

/-- Python truthiness of an optional int (`None` and `0` are falsy). -/
def truthyInt : Option Int → Option Int
  | some n => if n = 0 then none else some n
  | none => none

/-- `TYPE_PRECEDENCE` (src/graph_builder.py, line 381). -/
def TYPE_PRECEDENCE : PyDict String Nat :=
  [("Platform", 4), ("Service", 3), ("Partner", 2), ("Company", 1), ("Capability", 1), ("Event", 0)]

/-- `TYPE_PRECEDENCE.get(t, 0)`. -/
def typePrec (t : String) : Nat := (dictGet TYPE_PRECEDENCE t).getD 0

/-- The mutable state of `build_graph` (lines 374-378). -/
structure BuildState where
  label_to_node : PyDict String Node
  normalized_to_label : PyDict String String
  name_to_id : PyDict String String
  edge_dict : PyDict EdgeKey Edge
  chunk_entities : PyDict String (List (String × String))
  deriving Repr, DecidableEq

/-- Monadic left fold over `Option` (stops at the first `none`). -/
def foldlOpt {σ α : Type} (f : σ → α → Option σ) : σ → List α → Option σ
  | s, [] => some s
  | s, a :: rest =>
    match f s a with
    | none => none
    | some s' => foldlOpt f s' rest

/-- Lines 429-432: record `name_to_id` entries for both the raw and the
canonical spelling (bare dict lookups, hence `Option`). -/
def entityFinish (st : BuildState) (name normalized : String) : Option BuildState :=
  match dictGet st.normalized_to_label normalized with
  | none => none
  | some canonical_label =>
    match dictGet st.label_to_node canonical_label with
    | none => none
    | some node =>
      some { st with name_to_id :=
        (dictSet (dictSet st.name_to_id name node.id) canonical_label node.id) }

/-- One iteration of the first pass of build_graph (lines 385-432): merge
an entity record into the state, with type precedence. -/
def entityStep (chunk_id : String) (page : Int) (st : BuildState) (ent : EntityRec) :
    Option BuildState :=
  let name := pyTrim ent.name
  let node_type := ent.type
  let normalized := normalize_entity_label name
  let st1 := { st with chunk_entities :=
    (dictSet st.chunk_entities chunk_id
      (((dictGet st.chunk_entities chunk_id).getD []) ++ [(node_type, name)])) }
  match dictGet st1.normalized_to_label normalized with
  | some canonical_label =>
    match dictGet st1.label_to_node canonical_label with
    | none => none
    | some node =>
      let current_precedence := typePrec node.type
      let new_precedence := typePrec node_type
      let node1 := if new_precedence > current_precedence then
          { node with type := node_type, id := generate_id canonical_label node_type }
        else node
      let src : Src := ⟨chunk_id, page⟩
      let node2 := if src ∈ node1.sources then node1
        else { node1 with sources := node1.sources ++ [src] }
      let node3 := { node2 with attributes := dictUpdate node2.attributes ent.attributes }
      entityFinish { st1 with label_to_node := dictSet st1.label_to_node canonical_label node3 }
        name normalized
  | none =>
    let node_id := generate_id name node_type
    let node : Node := ⟨node_id, node_type, name, ent.attributes, [⟨chunk_id, page⟩]⟩
    entityFinish
      { st1 with
        label_to_node := dictSet st1.label_to_node name node,
        normalized_to_label := dictSet st1.normalized_to_label normalized name }
      name normalized

/-- First pass of build_graph over all extraction tuples. -/
def entityPass (extractions : List ExtractionTuple) (st : BuildState) : Option BuildState :=
  foldlOpt (fun s t => foldlOpt (entityStep t.1 t.2.1) s t.2.2.entities) st extractions

/-- Add or merge an edge under `key` (the repeated
`if key not in edge_dict … elif src_prov not in sources` pattern). -/
def upsertEdge (d : PyDict EdgeKey Edge) (key : EdgeKey) (newEdge : Edge) (src : Src) :
    PyDict EdgeKey Edge :=
  match dictGet d key with
  | none => dictSet d key newEdge
  | some e => if src ∈ e.sources then d
      else dictSet d key { e with sources := e.sources ++ [src] }

/-- One iteration of the relation loop (lines 438-454). -/
def relationStep (chunk_id : String) (page : Int) (st : BuildState) (r : RelationRec) :
    BuildState :=
  let src : Src := ⟨chunk_id, page⟩
  let from_name := pyTrim r.from_
  let to_name := pyTrim r.to_
  let relation := if r.relation ∈ CONTROLLED_RELATIONS then r.relation else "related_to"
  match truthyStr (dictGet st.name_to_id from_name), truthyStr (dictGet st.name_to_id to_name) with
  | some from_id, some to_id =>
    if from_id ≠ to_id then
      let key := (from_id, to_id, relation)
      { st with edge_dict := upsertEdge st.edge_dict key ⟨from_id, to_id, relation, [src]⟩ src }
    else st
  | _, _ => st

/-- One iteration of the event loop (lines 457-511).  NOTE (source slip):
node creation is guarded by `ev_id not in label_to_node`, but the node is
stored under the key `ev_name`; on a repeat sighting of the same event
name the guard is still satisfied, so a fresh node replaces the stored
one (the year/provenance-merging `else` branch is unreachable then). -/
def eventStep (chunk_id : String) (page : Int) (st : BuildState) (ev : EventRec) :
    Option BuildState :=
  let src : Src := ⟨chunk_id, page⟩
  let ev_name := ev.name
  let ev_id := "event_" ++ normalize_name ev_name
  let stNode? :=
    if (dictGet st.label_to_node ev_id).isNone then
      let node : Node := ⟨ev_id, "Event", ev_name,
        [("year", match ev.year with | some y => PyVal.vint y | none => PyVal.vnone),
         ("tags", PyVal.vstrlist ev.tags)],
        [src]⟩
      some { st with label_to_node := dictSet st.label_to_node ev_name node }
    else
      match dictGet st.label_to_node ev_name with
      | none => none
      | some node =>
        let node1 := match truthyInt ev.year with
          | some y => { node with attributes := dictSet node.attributes "year" (PyVal.vint y) }
          | none => node
        let node2 := if src ∈ node1.sources then node1
          else { node1 with sources := node1.sources ++ [src] }
        some { st with label_to_node := dictSet st.label_to_node ev_name node2 }
  match stNode? with
  | none => none
  | some st1 =>
    -- Company → Event
    let comp_id? := match truthyStr ev.company with
      | some comp_name => dictGet st1.name_to_id comp_name
      | none => none
    let st2 := match truthyStr comp_id? with
      | some comp_id =>
        { st1 with edge_dict := (upsertEdge st1.edge_dict (comp_id, ev_id, "has_event")
            ⟨comp_id, ev_id, "has_event", [src]⟩ src) }
      | none => st1
    -- Event → related entity
    let related_id? := match truthyStr ev.related_to with
      | some related_name => dictGet st2.name_to_id related_name
      | none => none
    let st3 := match truthyStr related_id? with
      | some related_id =>
        let rel := if ev.type = some "Launch" then "launched"
          else if ev.type = some "Acquisition" then "acquired"
          else "related_to"
        { st2 with edge_dict := (upsertEdge st2.edge_dict (ev_id, related_id, rel)
            ⟨ev_id, related_id, rel, [src]⟩ src) }
      | none => st2
    -- Direct company → acquired/launched relation with guardrails
    let st4 := match truthyStr related_id?, truthyStr comp_id? with
      | some related_id, some comp_id =>
        if comp_id ≠ related_id then
          if ev.type = some "Acquisition" then
            { st3 with edge_dict := (upsertEdge st3.edge_dict (comp_id, related_id, "acquired")
                ⟨comp_id, related_id, "acquired", [src]⟩ src) }
          else if ev.type = some "Launch" then
            { st3 with edge_dict := (upsertEdge st3.edge_dict (comp_id, related_id, "launched")
                ⟨comp_id, related_id, "launched", [src]⟩ src) }
          else st3
        else st3
      | _, _ => st3
    some st4

/-- Second pass of build_graph: relations, then events, per tuple. -/
def relationsEventsPass (extractions : List ExtractionTuple) (st : BuildState) :
    Option BuildState :=
  foldlOpt (fun s t =>
    foldlOpt (eventStep t.1 t.2.1)
      (t.2.2.relations.foldl (relationStep t.1 t.2.1) s) t.2.2.events) st extractions

/-- One iteration of the integration-inference loop (lines 516-550).  The
loop over `extractions` computing the unused local `chunk_text` has no
effect and is omitted. -/
def integrationStep (st : BuildState) (t : ExtractionTuple) : BuildState :=
  let chunk_id := t.1
  let page := t.2.1
  let ext := t.2.2
  let entities_in_chunk := (dictGet st.chunk_entities chunk_id).getD []
  let services_in_chunk := (entities_in_chunk.filter (fun p => decide (p.1 = "Service"))).map Prod.snd
  let platforms_in_chunk := (entities_in_chunk.filter (fun p => decide (p.1 = "Platform"))).map Prod.snd
  match services_in_chunk, platforms_in_chunk with
  | [service_name], [platform_name] =>
    match truthyStr (dictGet st.name_to_id service_name),
          truthyStr (dictGet st.name_to_id platform_name) with
    | some service_id, some platform_id =>
      let key := (service_id, platform_id, "integrated_with")
      if (dictGet st.edge_dict key).isNone then
        if ext.relations.any (fun r => decide (r.relation = "integrated_with")) then
          { st with edge_dict := (dictSet st.edge_dict key
              ⟨service_id, platform_id, "integrated_with", [⟨chunk_id, page⟩]⟩) }
        else st
      else st
    | _, _ => st
  | _, _ => st

/-- Integration-inference pass (lines 516-550). -/
def integrationPass (extractions : List ExtractionTuple) (st : BuildState) : BuildState :=
  extractions.foldl integrationStep st

/-- Source-node pass (lines 553-562): one Source node per chunk id. -/
def sourcePass (extractions : List ExtractionTuple) (document_name : String)
    (st : BuildState) : BuildState :=
  extractions.foldl (fun s t =>
    let chunk_id := t.1
    let page := t.2.1
    let source_id := "source_" ++ chunk_id
    if (dictGet s.label_to_node source_id).isNone then
      { s with label_to_node := (dictSet s.label_to_node source_id
          ⟨source_id, "Source",
           "Chunk " ++ chunk_id ++ " (page " ++ toString page ++ ")",
           [("chunk_id", PyVal.vstr chunk_id), ("page", PyVal.vint page),
            ("document", PyVal.vstr document_name)],
           []⟩) }
    else s) st

/-- `core_types` (line 564). -/
def core_types : List String :=
  ["Company", "Platform", "Service", "Product", "Capability", "Partner", "Event"]

/-- described_in pass (lines 565-574). -/
def describedInPass (st : BuildState) : BuildState :=
  (dictValues st.label_to_node).foldl (fun s node =>
    if node.type ∈ core_types then
      node.sources.foldl (fun s2 src =>
        let source_id := "source_" ++ src.chunk_id
        if (dictGet s2.label_to_node source_id).isSome then
          { s2 with edge_dict := (upsertEdge s2.edge_dict (node.id, source_id, "described_in")
              ⟨node.id, source_id, "described_in", [src]⟩ src) }
        else s2) s
    else s) st

/-- `build_graph` (src/graph_builder.py, lines 363-582); `none` models a
Python exception (unreachable `KeyError` paths). -/
def build_graph (extractions : List ExtractionTuple) (document_name : String) : Option Graph :=
  match entityPass extractions ⟨[], [], [], [], []⟩ with
  | none => none
  | some st1 =>
    match relationsEventsPass extractions st1 with
    | none => none
    | some st2 =>
      let st3 := integrationPass extractions st2
      let st4 := sourcePass extractions document_name st3
      let st5 := describedInPass st4
      some (normalize_graph ⟨dictValues st5.label_to_node, dictValues st5.edge_dict⟩)

/-! ## Concrete inputs used by counterexamples and witnesses -/

/-- Two chunks mentioning "TechNova Inc." and "TechNova" (Scenario A input). -/
def exDet1 : List ExtractionTuple :=
  [("c1", 1, ⟨[⟨"TechNova Inc.", "Company", []⟩], [], []⟩),
   ("c2", 2, ⟨[⟨"TechNova", "Company", []⟩], [], []⟩)]

/-- The same two chunks, supplied in the opposite order. -/
def exDet2 : List ExtractionTuple :=
  [("c2", 2, ⟨[⟨"TechNova", "Company", []⟩], [], []⟩),
   ("c1", 1, ⟨[⟨"TechNova Inc.", "Company", []⟩], [], []⟩)]

/-- The graph built from `exDet1`. -/
def gDet1 : Graph := (build_graph exDet1 "document.pdf").getD ⟨[], []⟩

/-- Repeat sighting of the same event name: first record carries
`year = 2023`, the second carries no year. -/
def exEvtRepeat : List ExtractionTuple :=
  [("c1", 1, ⟨[], [], [⟨"Expansion", some "Launch", some 2023, none, none, []⟩]⟩),
   ("c2", 2, ⟨[], [], [⟨"Expansion", some "Launch", none, none, none, []⟩]⟩)]

/-- The graph built from `exEvtRepeat`. -/
def gEvtRepeat : Graph := (build_graph exEvtRepeat "document.pdf").getD ⟨[], []⟩

/-- Key-uniqueness invariant of an edge dictionary: every entry is keyed
by its edge's `(from_id, to_id, relation)` triple and keys are distinct. -/
def goodEdgeDict (d : PyDict EdgeKey Edge) : Prop :=
  (∀ p ∈ d, p.1 = p.2.core) ∧ (d.map Prod.fst).Nodup

/-- A chunk whose relation record uses an unrecognized verb: the
assembler soft-coerces it to the fallback relation "related_to". -/
def exFall : List ExtractionTuple :=
  [("c1", 1, ⟨[⟨"NovaCloud", "Platform", []⟩, ⟨"DataFlow", "Service", []⟩],
              [⟨"NovaCloud", "DataFlow", "unsupported_verb"⟩], []⟩)]

/-- The graph built from `exFall`. -/
def gFall : Graph := (build_graph exFall "document.pdf").getD ⟨[], []⟩

/-- Scenario C as a raw graph: TechNova has an Acquisition event whose
target is QuantumAI, plus the provisional direct `acquired` edge. -/
def gScenCraw : Graph :=
  ⟨[⟨"company_technova", "Company", "TechNova", [], [⟨"c1", 1⟩]⟩,
    ⟨"event_acquisition_2023", "Event", "Acquisition 2023", [], [⟨"c1", 1⟩]⟩,
    ⟨"company_quantumai", "Company", "QuantumAI", [], [⟨"c1", 1⟩]⟩],
   [⟨"company_technova", "event_acquisition_2023", "has_event", [⟨"c1", 1⟩]⟩,
    ⟨"event_acquisition_2023", "company_quantumai", "acquired", [⟨"c1", 1⟩]⟩,
    ⟨"company_technova", "company_quantumai", "acquired", [⟨"c1", 1⟩]⟩]⟩

/-- A state holding one Company node "Nova" (for the precedence witness). -/
def ndNova : Node := ⟨"company_nova", "Company", "Nova", [], [⟨"c1", 1⟩]⟩

/-- Builder state after one sighting of Company "Nova". -/
def stNova : BuildState :=
  ⟨[("Nova", ndNova)], [("Nova", "Nova")], [("Nova", "company_nova")], [], []⟩

/-- An incoming Platform sighting of the same entity. -/
def entNova : EntityRec := ⟨"Nova", "Platform", []⟩

/-- The state after merging `entNova`. -/
def stNova' : BuildState := (entityStep "c2" 2 stNova entNova).getD stNova

/-- The stored node after the merge. -/
def ndNova' : Node := (dictGet stNova'.label_to_node "Nova").getD ndNova

/-- Every `(type, name)` pair recorded in `chunk_entities` has a
resolvable name in `name_to_id` (invariant of the entity pass). -/
def chunkNamesResolve (st : BuildState) : Prop :=
  ∀ (c : String) (l : List (String × String)), dictGet st.chunk_entities c = some l →
    ∀ pr ∈ l, (dictGet st.name_to_id pr.2).isSome = true

/-- A chunk with exactly one Service, one Platform, and an
`integrated_with` relation record (integration-inference witness). -/
def exInt : List ExtractionTuple :=
  [("c1", 1, ⟨[⟨"DataFlow", "Service", []⟩, ⟨"NovaCloud", "Platform", []⟩],
              [⟨"DataFlow", "NovaCloud", "integrated_with"⟩], []⟩)]

/-- The builder state after the entity pass over `exInt`. -/
def stInt : BuildState :=
  (entityPass exInt ⟨[], [], [], [], []⟩).getD ⟨[], [], [], [], []⟩

/-- Two Company nodes joined by an edge whose relation is the
uncontrolled fallback "related_to". -/
def gLlm : Graph :=
  ⟨[⟨"company_alpha", "Company", "Alpha", [], [⟨"c1", 1⟩]⟩,
    ⟨"company_bravo", "Company", "Bravo", [], [⟨"c1", 1⟩]⟩],
   [⟨"company_alpha", "company_bravo", "related_to", [⟨"c1", 1⟩]⟩]⟩

/-! ## Dictionary and deduplication lemmas -/

theorem dictGet_dictSet_self {α β : Type} [DecidableEq α] (d : PyDict α β) (k : α) (v : β) :
    dictGet (dictSet d k v) k = some v := by
  induction d with
  | nil => simp [dictGet, dictSet]
  | cons p rest ih =>
    obtain ⟨k', v'⟩ := p
    by_cases h : k' = k
    · subst h; simp [dictGet, dictSet]
    · simp [dictGet, dictSet, h, ih]

theorem dictGet_isSome_iff {α β : Type} [DecidableEq α] (d : PyDict α β) (k : α) :
    (dictGet d k).isSome = true ↔ k ∈ d.map Prod.fst := by
  induction d with
  | nil => simp [dictGet]
  | cons p rest ih =>
    obtain ⟨k', v'⟩ := p
    by_cases h : k' = k
    · subst h; simp [dictGet]
    · simp [dictGet, h, ih, Ne.symm h]

theorem mergeEdgeSources_core (a b : Edge) : (mergeEdgeSources a b).core = a.core := rfl

theorem dedupEdges_core_mem :
    ∀ (es : List Edge) (d : PyDict EdgeKey Edge) (p : EdgeKey × Edge),
      p ∈ dedupEdges d es →
      (∃ q ∈ d, p.1 = q.1 ∧ p.2.core = q.2.core) ∨
      (∃ e ∈ es, p.1 = e.core ∧ p.2.core = e.core) := by
  intro es
  induction es with
  | nil =>
    intro d p hp
    exact Or.inl ⟨p, by simpa [dedupEdges] using hp, rfl, rfl⟩
  | cons e rest ih =>
    intro d p hp
    simp only [dedupEdges] at hp
    split at hp
    · -- key already present: the dict entries are mapped in place
      rcases ih _ p hp with ⟨q, hq, h1, h2⟩ | ⟨e', he', h1, h2⟩
      · rcases List.mem_map.mp hq with ⟨q₀, hq₀, rfl⟩
        refine Or.inl ⟨q₀, hq₀, ?_, ?_⟩
        · by_cases hk : q₀.1 = e.core <;> simp [hk] at h1 <;> simp [h1, hk]
        · by_cases hk : q₀.1 = e.core <;>
            simp [hk, mergeEdgeSources_core] at h2 <;> exact h2
      · exact Or.inr ⟨e', List.mem_cons_of_mem _ he', h1, h2⟩
    · -- key absent: the new entry is appended
      rcases ih _ p hp with ⟨q, hq, h1, h2⟩ | ⟨e', he', h1, h2⟩
      · rcases List.mem_append.mp hq with hq' | hq'
        · exact Or.inl ⟨q, hq', h1, h2⟩
        · have hq2 : q = (e.core, e) := by simpa using hq'
          subst hq2
          exact Or.inr ⟨e, List.mem_cons_self _ _, h1, h2⟩
      · exact Or.inr ⟨e', List.mem_cons_of_mem _ he', h1, h2⟩

theorem dedupEdges_good :
    ∀ (es : List Edge) (d : PyDict EdgeKey Edge),
      goodEdgeDict d → goodEdgeDict (dedupEdges d es) := by
  intro es
  induction es with
  | nil => intro d hd; simpa [dedupEdges] using hd
  | cons e rest ih =>
    intro d hd
    simp only [dedupEdges]
    split
    · refine ih _ ⟨?_, ?_⟩
      · intro p hp
        rcases List.mem_map.mp hp with ⟨q₀, hq₀, rfl⟩
        by_cases hk : q₀.1 = e.core
        · simp [hk, mergeEdgeSources_core]
          rw [← hk]; exact hd.1 q₀ hq₀
        · simp [hk]
          exact hd.1 q₀ hq₀
      · have : (List.map Prod.fst
            (List.map (fun p => if p.1 = e.core then (p.1, mergeEdgeSources p.2 e) else p) d))
            = List.map Prod.fst d := by
          rw [List.map_map]
          refine List.map_congr_left ?_
          intro p _
          by_cases hk : p.1 = e.core <;> simp [hk]
        rw [this]; exact hd.2
    · next hnone =>
      refine ih _ ⟨?_, ?_⟩
      · intro p hp
        rcases List.mem_append.mp hp with hp' | hp'
        · exact hd.1 p hp'
        · have hp2 : p = (e.core, e) := by simpa using hp'
          subst hp2; rfl
      · have hk : e.core ∉ d.map Prod.fst := by
          intro hmem
          exact hnone ((dictGet_isSome_iff d e.core).mpr hmem)
        simp [List.nodup_append, hd.2, hk]

theorem rewriteEdgesNorm_mem (nm : PyDict String String) (edges : List Edge) (e : Edge)
    (he : e ∈ rewriteEdgesNorm nm edges) :
    e.relation ∈ CONTROLLED_RELATIONS ∧ e.from_id ≠ e.to_id ∧
    ∃ e₀ ∈ edges, e₀.relation = e.relation := by
  simp only [rewriteEdgesNorm, List.mem_filterMap] at he
  obtain ⟨a, ha, hfa⟩ := he
  split at hfa
  · exact absurd hfa (by simp)
  · split at hfa
    · exact absurd hfa (by simp)
    · split at hfa
      · exact absurd hfa (by simp)
      · next h1 h2 h3 =>
        obtain rfl := Option.some.inj hfa
        exact ⟨not_not.mp h3, h2, a, ha, rfl⟩

theorem core_eq_fields {a b : Edge} (h : a.core = b.core) :
    a.from_id = b.from_id ∧ a.to_id = b.to_id ∧ a.relation = b.relation := by
  simpa [Edge.core, Prod.ext_iff] using h

theorem normalize_graph_edge_mem (g : Graph) (e : Edge) (he : e ∈ (normalize_graph g).edges) :
    ∃ e₀ ∈ normFinalEdges g, e₀.core = e.core := by
  simp only [normalize_graph, sortEdges, dictValues] at he
  rw [(List.perm_insertionSort _ _).mem_iff] at he
  rcases List.mem_map.mp he with ⟨p, hp, rfl⟩
  rcases dedupEdges_core_mem _ _ _ hp with ⟨q, hq, _, _⟩ | ⟨e₀, he₀, _, h2⟩
  · simp at hq
  · exact ⟨e₀, he₀, h2.symm⟩

theorem normFinalEdges_controlled (g : Graph) (e : Edge) (he : e ∈ normFinalEdges g) :
    e.relation ∈ CONTROLLED_RELATIONS ∧ e.from_id ≠ e.to_id := by
  obtain ⟨hu, -⟩ : e ∈ normUpdatedEdges g ∧
      e.core ∉ eventMediated (eventNodeIds (normMerged g).1) (normUpdatedEdges g) := by
    simpa [normFinalEdges] using he
  obtain ⟨h1, h2, -⟩ := rewriteEdgesNorm_mem _ _ _ hu
  exact ⟨h1, h2⟩

theorem normalize_graph_edges_controlled (g : Graph) :
    ∀ e ∈ (normalize_graph g).edges,
      e.relation ∈ CONTROLLED_RELATIONS ∧ e.from_id ≠ e.to_id := by
  intro e he
  obtain ⟨e₀, he₀, hc⟩ := normalize_graph_edge_mem g e he
  obtain ⟨hf, ht, hr⟩ := core_eq_fields hc
  obtain ⟨h1, h2⟩ := normFinalEdges_controlled g e₀ he₀
  refine ⟨hr ▸ h1, ?_⟩
  rw [← hf, ← ht]; exact h2

theorem normalize_graph_edges_nodup_core (g : Graph) :
    List.Pairwise (fun a b : Edge => a.core ≠ b.core) (normalize_graph g).edges := by
  have hgood := dedupEdges_good (normFinalEdges g) [] ⟨by simp, by simp⟩
  have hmap : (dedupEdges [] (normFinalEdges g)).map Prod.fst
      = ((dedupEdges [] (normFinalEdges g)).map Prod.snd).map Edge.core := by
    rw [List.map_map]
    exact List.map_congr_left (fun p hp => hgood.1 p hp)
  have hnodup : (((dedupEdges [] (normFinalEdges g)).map Prod.snd).map Edge.core).Nodup := by
    rw [← hmap]; exact hgood.2
  have hpw : List.Pairwise (fun a b : Edge => a.core ≠ b.core)
      ((dedupEdges [] (normFinalEdges g)).map Prod.snd) := by
    exact List.pairwise_map.mp hnodup
  have hperm := List.perm_insertionSort (fun a b => edgeSortLe a b = true)
    (dictValues (dedupEdges [] (normFinalEdges g)))
  have hsymm : ∀ {x y : Edge}, x.core ≠ y.core → y.core ≠ x.core := fun h => Ne.symm h
  simp only [normalize_graph, sortEdges]
  exact (List.Perm.pairwise_iff hsymm hperm).mpr hpw

theorem build_graph_eq_normalize (extractions : List ExtractionTuple) (document_name : String)
    (g : Graph) (h : build_graph extractions document_name = some g) :
    ∃ raw : Graph, g = normalize_graph raw := by
  unfold build_graph at h
  cases hep : entityPass extractions ⟨[], [], [], [], []⟩ with
  | none => rw [hep] at h; exact absurd h (by simp)
  | some st1 =>
    rw [hep] at h
    dsimp only at h
    cases hre : relationsEventsPass extractions st1 with
    | none => rw [hre] at h; exact absurd h (by simp)
    | some st2 =>
      rw [hre] at h
      dsimp only at h
      exact ⟨_, (Option.some.inj h).symm⟩

/-! ## Claim theorems -/

/-- C3: for every input on which `build_graph` returns a graph, every
edge of that graph carries a relation from the controlled vocabulary
`CONTROLLED_RELATIONS`. -/
theorem relation_closure_final_graph
    (extractions : List ExtractionTuple) (document_name : String) (g : Graph)
    (h : build_graph extractions document_name = some g) :
    ∀ e ∈ g.edges, e.relation ∈ CONTROLLED_RELATIONS := by
  obtain ⟨raw, rfl⟩ := build_graph_eq_normalize extractions document_name g h
  exact fun e he => (normalize_graph_edges_controlled raw e he).1

/-- Witness for C3 at the concrete input `exDet1`. -/
theorem relation_closure_final_graph_witness :
    build_graph exDet1 "document.pdf" = some gDet1 ∧
    ∀ e ∈ gDet1.edges, e.relation ∈ CONTROLLED_RELATIONS :=
  ⟨by rfl, relation_closure_final_graph exDet1 "document.pdf" gDet1 (by rfl)⟩

/-- C5: for every input on which `build_graph` returns a graph, every
edge of that graph has distinct endpoints (no self-loops). -/
theorem no_self_loops_final_graph
    (extractions : List ExtractionTuple) (document_name : String) (g : Graph)
    (h : build_graph extractions document_name = some g) :
    ∀ e ∈ g.edges, e.from_id ≠ e.to_id := by
  obtain ⟨raw, rfl⟩ := build_graph_eq_normalize extractions document_name g h
  exact fun e he => (normalize_graph_edges_controlled raw e he).2

/-- Witness for C5 at the concrete input `exDet1`. -/
theorem no_self_loops_final_graph_witness :
    build_graph exDet1 "document.pdf" = some gDet1 ∧
    ∀ e ∈ gDet1.edges, e.from_id ≠ e.to_id :=
  ⟨by rfl, no_self_loops_final_graph exDet1 "document.pdf" gDet1 (by rfl)⟩

/-- C6: in the graph returned by `build_graph` no two edges share the
same `(from_id, to_id, relation)` triple; moreover the dedup step, on a
second occurrence of an existing key, merges sources into the existing
edge and creates no new dictionary entry. -/
theorem edge_uniqueness_final_graph
    (extractions : List ExtractionTuple) (document_name : String) (g : Graph)
    (h : build_graph extractions document_name = some g) :
    List.Pairwise (fun a b : Edge => a.core ≠ b.core) g.edges ∧
    ∀ (d : PyDict EdgeKey Edge) (e : Edge), (dictGet d e.core).isSome →
      dictKeys (dedupEdges d [e]) = dictKeys d := by
  constructor
  · obtain ⟨raw, rfl⟩ := build_graph_eq_normalize extractions document_name g h
    exact normalize_graph_edges_nodup_core raw
  · intro d e hsome
    simp only [dedupEdges, hsome, if_pos, dictKeys, List.map_map]
    refine List.map_congr_left ?_
    intro p _
    by_cases hk : p.1 = e.core <;> simp [hk]

/-- Witness for C6 at the concrete input `exDet1`, also exercising the
merge-not-duplicate conjunct on a one-entry edge dictionary. -/
theorem edge_uniqueness_final_graph_witness :
    (build_graph exDet1 "document.pdf" = some gDet1 ∧
     List.Pairwise (fun a b : Edge => a.core ≠ b.core) gDet1.edges) ∧
    dictKeys (dedupEdges [(("a", "b", "offers"), ⟨"a", "b", "offers", [⟨"c1", 1⟩]⟩)]
        [⟨"a", "b", "offers", [⟨"c2", 2⟩]⟩])
      = dictKeys [(("a", "b", "offers"), (⟨"a", "b", "offers", [⟨"c1", 1⟩]⟩ : Edge))] :=
  ⟨⟨by rfl, (edge_uniqueness_final_graph exDet1 "document.pdf" gDet1 (by rfl)).1⟩,
   (edge_uniqueness_final_graph exDet1 "document.pdf" gDet1 (by rfl)).2
     [(("a", "b", "offers"), ⟨"a", "b", "offers", [⟨"c1", 1⟩]⟩)]
     ⟨"a", "b", "offers", [⟨"c2", 2⟩]⟩ (by rfl)⟩

/-- C10: the generic fallback relation "related_to" is not a member of
`CONTROLLED_RELATIONS`, and consequently no edge of a graph returned by
`build_graph` carries it — the normalizer's hard filter always scrubs
the fallback. -/
theorem fallback_relation_scrubbed
    (extractions : List ExtractionTuple) (document_name : String) (g : Graph)
    (h : build_graph extractions document_name = some g) :
    "related_to" ∉ CONTROLLED_RELATIONS ∧
    ∀ e ∈ g.edges, e.relation ≠ "related_to" := by
  refine ⟨by decide, ?_⟩
  intro e he heq
  have hc := relation_closure_final_graph extractions document_name g h e he
  rw [heq] at hc
  exact absurd hc (by decide)

/-- Witness for C10 at the concrete input `exFall`, whose relation record
carries an unrecognized verb and is soft-coerced to "related_to" at
assembly time. -/
theorem fallback_relation_scrubbed_witness :
    build_graph exFall "document.pdf" = some gFall ∧
    ∀ e ∈ gFall.edges, e.relation ≠ "related_to" :=
  ⟨by rfl, (fallback_relation_scrubbed exFall "document.pdf" gFall (by rfl)).2⟩

/-! ## String-order lemmas (for the sortedness of the output) -/

theorem charToNat_inj {a b : Char} (h : a.toNat = b.toNat) : a = b := by
  have ha := Char.ofNat_toNat a
  rw [← ha, h, Char.ofNat_toNat]

theorem strListLt_irrefl : ∀ a : List Char, strListLt a a = false := by
  intro a
  induction a with
  | nil => rfl
  | cons c rest ih => simp [strListLt, ih]

theorem strListLt_trans :
    ∀ {a b c : List Char}, strListLt a b = true → strListLt b c = true →
      strListLt a c = true := by
  intro a
  induction a with
  | nil =>
    intro b c hab hbc
    cases b with
    | nil => exact absurd hab (by simp [strListLt])
    | cons y ys =>
      cases c with
      | nil => exact absurd hbc (by simp [strListLt])
      | cons z zs => simp [strListLt]
  | cons x xs ih =>
    intro b c hab hbc
    cases b with
    | nil => exact absurd hab (by simp [strListLt])
    | cons y ys =>
      cases c with
      | nil => exact absurd hbc (by simp [strListLt])
      | cons z zs =>
        simp only [strListLt] at hab hbc ⊢
        by_cases hxy : x.toNat < y.toNat
        · by_cases hyz : y.toNat < z.toNat
          · simp [Nat.lt_trans hxy hyz]
          · simp only [hyz, if_neg, if_pos hxy] at hbc ⊢
            by_cases hzy : z.toNat < y.toNat
            · simp [hzy] at hbc
            · have : x.toNat < z.toNat := by omega
              simp [this]
        · simp only [hxy, if_neg] at hab
          by_cases hyx : y.toNat < x.toNat
          · simp [hyx] at hab
          · have hxyeq : x.toNat = y.toNat := by omega
            simp only [hyx, if_neg] at hab
            by_cases hyz : y.toNat < z.toNat
            · have : x.toNat < z.toNat := by omega
              simp [this]
            · simp only [hyz, if_neg] at hbc
              by_cases hzy : z.toNat < y.toNat
              · simp [hzy] at hbc
              · have h1 : ¬ x.toNat < z.toNat := by omega
                have h2 : ¬ z.toNat < x.toNat := by omega
                simp only [h1, h2, if_neg]
                exact ih (by simpa [hxy, hyx] using hab) (by simpa [hyz, hzy] using hbc)

theorem strListLt_trichotomy :
    ∀ a b : List Char, strListLt a b = true ∨ strListLt b a = true ∨ a = b := by
  intro a
  induction a with
  | nil =>
    intro b
    cases b with
    | nil => right; right; rfl
    | cons y ys => left; simp [strListLt]
  | cons x xs ih =>
    intro b
    cases b with
    | nil => right; left; simp [strListLt]
    | cons y ys =>
      by_cases hxy : x.toNat < y.toNat
      · left; simp [strListLt, hxy]
      · by_cases hyx : y.toNat < x.toNat
        · right; left; simp [strListLt, hyx]
        · have hx : x = y := charToNat_inj (by omega)
          subst hx
          rcases ih ys with h | h | h
          · left; simp [strListLt, h]
          · right; left; simp [strListLt, h]
          · right; right; rw [h]

theorem strLt_trans {a b c : String} (h1 : strLt a b = true) (h2 : strLt b c = true) :
    strLt a c = true := strListLt_trans h1 h2

theorem strLt_irrefl (a : String) : strLt a a = false := strListLt_irrefl _

theorem strLt_trichotomy (a b : String) :
    strLt a b = true ∨ strLt b a = true ∨ a = b := by
  rcases strListLt_trichotomy a.toList b.toList with h | h | h
  · exact Or.inl h
  · exact Or.inr (Or.inl h)
  · exact Or.inr (Or.inr (String.ext h))

theorem strLt_asymm {a b : String} (h : strLt a b = true) : strLt b a = false := by
  by_contra hc
  have hba : strLt b a = true := by revert hc; cases strLt b a <;> simp
  have := strLt_trans h hba
  rw [strLt_irrefl] at this
  exact Bool.false_ne_true this

theorem strLe_total (a b : String) : strLe a b = true ∨ strLe b a = true := by
  rcases strLt_trichotomy a b with h | h | h
  · exact Or.inl (by simp [strLe, h])
  · exact Or.inr (by simp [strLe, h])
  · exact Or.inl (by simp [strLe, h])

theorem strLe_trans {a b c : String} (h1 : strLe a b = true) (h2 : strLe b c = true) :
    strLe a c = true := by
  simp only [strLe, Bool.or_eq_true, decide_eq_true_eq] at h1 h2 ⊢
  rcases h1 with h1 | h1
  · rcases h2 with h2 | h2
    · exact Or.inl (strLt_trans h1 h2)
    · exact Or.inl (h2 ▸ h1)
  · rcases h2 with h2 | h2
    · exact Or.inl (h1 ▸ h2)
    · exact Or.inr (h1.trans h2)

theorem tripleLe_total (x y : String × String × String) :
    tripleLe x y = true ∨ tripleLe y x = true := by
  unfold tripleLe
  by_cases h1 : x.1 = y.1
  · rw [if_pos h1, if_pos h1.symm]
    by_cases h2 : x.2.1 = y.2.1
    · rw [if_pos h2, if_pos h2.symm]
      exact strLe_total _ _
    · rw [if_neg h2, if_neg (fun h => h2 h.symm)]
      rcases strLt_trichotomy x.2.1 y.2.1 with h | h | h
      · exact Or.inl h
      · exact Or.inr h
      · exact absurd h h2
  · rw [if_neg h1, if_neg (fun h => h1 h.symm)]
    rcases strLt_trichotomy x.1 y.1 with h | h | h
    · exact Or.inl h
    · exact Or.inr h
    · exact absurd h h1

theorem tripleLe_trans {x y z : String × String × String}
    (h1 : tripleLe x y = true) (h2 : tripleLe y z = true) : tripleLe x z = true := by
  unfold tripleLe at h1 h2 ⊢
  by_cases e1 : x.1 = y.1
  · by_cases e2 : y.1 = z.1
    · have e3 : x.1 = z.1 := e1.trans e2
      simp only [e1, e2, e3, if_pos] at h1 h2 ⊢
      by_cases f1 : x.2.1 = y.2.1
      · by_cases f2 : y.2.1 = z.2.1
        · have f3 : x.2.1 = z.2.1 := f1.trans f2
          simp only [f1, f2, f3, if_pos] at h1 h2 ⊢
          exact strLe_trans h1 h2
        · have f3 : ¬ x.2.1 = z.2.1 := fun h => f2 (f1 ▸ h)
          simp only [f1, f2, f3, if_pos, if_neg, not_false_iff] at h1 h2 ⊢
          exact f1 ▸ h2
      · by_cases f2 : y.2.1 = z.2.1
        · have f3 : ¬ x.2.1 = z.2.1 := fun h => f1 (h.trans f2.symm)
          simp only [f1, f2, f3, if_pos, if_neg, not_false_iff] at h1 h2 ⊢
          exact f2 ▸ h1
        · by_cases f3 : x.2.1 = z.2.1
          · exfalso
            simp only [f1, f2, if_neg, not_false_iff] at h1 h2
            have := strLt_trans h1 h2
            rw [f3, strLt_irrefl] at this
            exact Bool.false_ne_true this
          · simp only [f1, f2, f3, if_neg, not_false_iff] at h1 h2 ⊢
            exact strLt_trans h1 h2
    · have e3 : ¬ x.1 = z.1 := fun h => e2 (e1 ▸ h)
      simp only [e1, e2, e3, if_pos, if_neg, not_false_iff] at h1 h2 ⊢
      exact e1 ▸ h2
  · by_cases e2 : y.1 = z.1
    · have e3 : ¬ x.1 = z.1 := fun h => e1 (h.trans e2.symm)
      simp only [e1, e2, e3, if_pos, if_neg, not_false_iff] at h1 h2 ⊢
      exact e2 ▸ h1
    · by_cases e3 : x.1 = z.1
      · exfalso
        simp only [e1, e2, if_neg, not_false_iff] at h1 h2
        have := strLt_trans h1 h2
        rw [e3, strLt_irrefl] at this
        exact Bool.false_ne_true this
      · simp only [e1, e2, e3, if_neg, not_false_iff] at h1 h2 ⊢
        exact strLt_trans h1 h2

/-- C1 counterexample: the two-chunk input `exDet1` ("TechNova Inc."
then "TechNova") and its permutation `exDet2` produce different final
graphs — the suffix-stripping entity merger fixes the first-seen raw
label as canonical, so arrival order leaks into labels and ids. -/
theorem build_graph_not_permutation_invariant :
    exDet1.Perm exDet2 ∧
    build_graph exDet1 "document.pdf" ≠ build_graph exDet2 "document.pdf" :=
  ⟨by decide, by decide⟩

/-- C1 amended: for a fixed input list `build_graph` is a function (two
invocations agree), and its output node and edge lists are sorted by the
keys `(type, label, id)` and `(from_id, relation, to_id)`; full
permutation-invariance of the input does not hold (see the
counterexample). -/
theorem build_graph_output_sorted
    (extractions : List ExtractionTuple) (document_name : String) (g : Graph)
    (h : build_graph extractions document_name = some g) :
    List.Pairwise (fun a b : Node => nodeSortLe a b = true) g.nodes ∧
    List.Pairwise (fun a b : Edge => edgeSortLe a b = true) g.edges := by
  obtain ⟨raw, rfl⟩ := build_graph_eq_normalize extractions document_name g h
  haveI hnt : IsTotal Node (fun a b => nodeSortLe a b = true) :=
    ⟨fun a b => tripleLe_total _ _⟩
  haveI hntr : IsTrans Node (fun a b => nodeSortLe a b = true) :=
    ⟨fun _ _ _ hab hbc => tripleLe_trans hab hbc⟩
  haveI het : IsTotal Edge (fun a b => edgeSortLe a b = true) :=
    ⟨fun a b => tripleLe_total _ _⟩
  haveI hetr : IsTrans Edge (fun a b => edgeSortLe a b = true) :=
    ⟨fun _ _ _ hab hbc => tripleLe_trans hab hbc⟩
  constructor
  · simpa [normalize_graph, sortNodes] using
      List.sorted_insertionSort (fun a b : Node => nodeSortLe a b = true)
        (normMerged raw).1
  · simpa [normalize_graph, sortEdges] using
      List.sorted_insertionSort (fun a b : Edge => edgeSortLe a b = true)
        (dictValues (dedupEdges [] (normFinalEdges raw)))

/-- Witness for the amended C1 theorem at the concrete input `exDet1`. -/
theorem build_graph_output_sorted_witness :
    build_graph exDet1 "document.pdf" = some gDet1 ∧
    (List.Pairwise (fun a b : Node => nodeSortLe a b = true) gDet1.nodes ∧
     List.Pairwise (fun a b : Edge => edgeSortLe a b = true) gDet1.edges) :=
  ⟨by rfl, build_graph_output_sorted exDet1 "document.pdf" gDet1 (by rfl)⟩

/-- C4 (code bug): on a repeat sighting of the same event name the
builder does not keep the existing Event node — the creation guard
checks `ev_id` against a dictionary keyed by `ev_name`, so a fresh node
replaces the stored one: the year recorded at the first sighting (2023)
is reset to None and the first provenance record is dropped. -/
theorem event_repeat_sighting_resets_node :
    build_graph exEvtRepeat "document.pdf" = some gEvtRepeat ∧
    ∃ n ∈ gEvtRepeat.nodes, n.id = "event_expansion" ∧
      dictGet n.attributes "year" = some PyVal.vnone ∧
      n.sources = [⟨"c2", 2⟩] :=
  ⟨by rfl, by decide⟩

/-- C2: in a normalized graph, whenever a `has_event` edge `c → ev` and
an `ev → t` edge with relation launched/acquired both exist with `ev` an
Event node, the direct edge `c → t` with the same relation is absent. -/
theorem event_first_exclusivity
    (g : Graph) (c ev t rel : String)
    (hrel : rel = "launched" ∨ rel = "acquired")
    (hev : ∃ n ∈ (normalize_graph g).nodes, n.id = ev ∧ n.type = "Event")
    (hhe : ∃ e ∈ (normalize_graph g).edges,
      e.from_id = c ∧ e.to_id = ev ∧ e.relation = "has_event")
    (hlt : ∃ e ∈ (normalize_graph g).edges,
      e.from_id = ev ∧ e.to_id = t ∧ e.relation = rel) :
    ¬ ∃ e ∈ (normalize_graph g).edges,
      e.from_id = c ∧ e.to_id = t ∧ e.relation = rel := by
  -- The Event node survives to `merged_nodes`, so `ev ∈ eventNodeIds`.
  obtain ⟨n, hn, hnid, hntype⟩ := hev
  have hnm : n ∈ (normMerged g).1 := by
    have h' : n ∈ List.insertionSort (fun a b => nodeSortLe a b = true) (normMerged g).1 := by
      simpa [normalize_graph, sortNodes] using hn
    rwa [(List.perm_insertionSort _ _).mem_iff] at h'
  have hevIds : ev ∈ eventNodeIds (normMerged g).1 := by
    refine List.mem_map.mpr ⟨n, List.mem_filter.mpr ⟨hnm, ?_⟩, hnid⟩
    simp [hntype]
  -- Both mediating edges come from `normUpdatedEdges` with the same cores.
  obtain ⟨e1, he1, h1f, h1t, h1r⟩ := hhe
  obtain ⟨e1', he1', hc1⟩ := normalize_graph_edge_mem g e1 he1
  have he1'u : e1' ∈ normUpdatedEdges g := (List.mem_filter.mp he1').1
  obtain ⟨h1f', h1t', h1r'⟩ := core_eq_fields hc1
  obtain ⟨e2, he2, h2f, h2t, h2r⟩ := hlt
  obtain ⟨e2', he2', hc2⟩ := normalize_graph_edge_mem g e2 he2
  have he2'u : e2' ∈ normUpdatedEdges g := (List.mem_filter.mp he2').1
  obtain ⟨h2f', h2t', h2r'⟩ := core_eq_fields hc2
  -- Hence `(c, t, rel)` is an event-mediated triple.
  have hem : (c, t, rel) ∈ eventMediated (eventNodeIds (normMerged g).1)
      (normUpdatedEdges g) := by
    unfold eventMediated
    refine List.mem_flatMap.mpr ⟨e2', List.mem_filter.mpr ⟨he2'u, ?_⟩, ?_⟩
    · have hfrom : e2'.from_id = ev := h2f'.trans h2f
      have hrel2 : e2'.relation = rel := h2r'.trans h2r
      simp only [decide_eq_true_eq]
      refine ⟨hfrom ▸ hevIds, ?_⟩
      rw [hrel2]
      exact hrel
    · refine List.mem_map.mpr ⟨e1', List.mem_filter.mpr ⟨he1'u, ?_⟩, ?_⟩
      · simp only [decide_eq_true_eq]
        constructor
        · rw [h1t'.trans h1t, h2f'.trans h2f]
        · exact h1r'.trans h1r
      · rw [h1f'.trans h1f, h2t'.trans h2t, h2r'.trans h2r]
  -- A direct `c → t` edge in the final graph would contradict the
  -- event-first filter.
  rintro ⟨e3, he3, h3f, h3t, h3r⟩
  obtain ⟨e3', he3', hc3⟩ := normalize_graph_edge_mem g e3 he3
  obtain ⟨h3f', h3t', h3r'⟩ := core_eq_fields hc3
  have hnotin : e3'.core ∉ eventMediated (eventNodeIds (normMerged g).1)
      (normUpdatedEdges g) := by
    have := (List.mem_filter.mp he3').2
    simpa using this
  apply hnotin
  have : e3'.core = (c, t, rel) := by
    simp [Edge.core, h3f'.trans h3f, h3t'.trans h3t, h3r'.trans h3r]
  rw [this]
  exact hem

/-- Witness for C2 at the Scenario C graph: the direct `acquired` edge
TechNova → QuantumAI is absent from the normalized graph. -/
theorem event_first_exclusivity_witness :
    ¬ ∃ e ∈ (normalize_graph gScenCraw).edges,
      e.from_id = "company_technova" ∧ e.to_id = "company_quantumai" ∧
      e.relation = "acquired" :=
  event_first_exclusivity gScenCraw "company_technova" "event_acquisition_2023"
    "company_quantumai" "acquired" (Or.inr rfl) (by decide) (by decide) (by decide)

/-! ## Type precedence (entity merge step) -/

theorem typePrec_le_four (t : String) : typePrec t ≤ 4 := by
  simp only [typePrec, TYPE_PRECEDENCE, dictGet]
  split_ifs <;> simp

theorem dictGet_dictSet_isSome {α β : Type} [DecidableEq α]
    (d : PyDict α β) (k k' : α) (v : β) (h : (dictGet d k').isSome = true) :
    (dictGet (dictSet d k v) k').isSome = true := by
  by_cases hk : k = k'
  · subst hk; rw [dictGet_dictSet_self]; rfl
  · rw [dictGet_isSome_iff] at h ⊢
    have : (dictSet d k v).map Prod.fst = d.map Prod.fst ∨
        (dictSet d k v).map Prod.fst = d.map Prod.fst ++ [k] := by
      clear h
      induction d with
      | nil => right; rfl
      | cons p rest ih =>
        by_cases hp : p.1 = k
        · left
          obtain ⟨k1, v1⟩ := p
          simp only at hp
          simp [dictSet, hp]
        · obtain ⟨k1, v1⟩ := p
          simp only at hp
          rcases ih with h' | h'
          · left; simp [dictSet, hp, h']
          · right; simp [dictSet, hp, h']
    rcases this with h' | h'
    · rw [h']; exact h
    · rw [h']; exact List.mem_append_left _ h

/-- C7: in the entity-merge pass, a repeat sighting changes the stored
node's type only when the incoming type strictly outranks it under
`TYPE_PRECEDENCE`; on an upgrade the id is recomputed from the unchanged
canonical label and the new type, the label never changes, the stored
precedence never decreases, and a `Platform` node is never downgraded. -/
theorem type_precedence_monotone
    (chunk_id : String) (page : Int) (st st' : BuildState) (ent : EntityRec)
    (canonical_label : String) (node node' : Node)
    (h1 : dictGet st.normalized_to_label (normalize_entity_label (pyTrim ent.name))
      = some canonical_label)
    (h2 : dictGet st.label_to_node canonical_label = some node)
    (h3 : entityStep chunk_id page st ent = some st')
    (h4 : dictGet st'.label_to_node canonical_label = some node') :
    node'.type = (if typePrec node.type < typePrec ent.type then ent.type else node.type) ∧
    node'.id = (if typePrec node.type < typePrec ent.type
      then generate_id canonical_label ent.type else node.id) ∧
    node'.label = node.label ∧
    typePrec node.type ≤ typePrec node'.type ∧
    (node.type = "Platform" → node'.type = "Platform") := by
  unfold entityStep at h3
  dsimp only at h3
  rw [h1] at h3
  dsimp only at h3
  rw [h2] at h3
  dsimp only at h3
  unfold entityFinish at h3
  dsimp only at h3
  rw [h1] at h3
  dsimp only at h3
  rw [dictGet_dictSet_self] at h3
  dsimp only at h3
  obtain rfl := Option.some.inj h3
  dsimp only at h4
  rw [dictGet_dictSet_self] at h4
  obtain rfl := Option.some.inj h4
  by_cases hp : typePrec node.type < typePrec ent.type
  · simp only [gt_iff_lt, if_pos hp, apply_ite Node.type, apply_ite Node.id,
      apply_ite Node.label, ite_self]
    refine ⟨trivial, trivial, trivial, le_of_lt hp, fun hplat => ?_⟩
    exfalso
    rw [hplat] at hp
    have h4' : typePrec ent.type ≤ 4 := typePrec_le_four _
    have h5 : typePrec "Platform" = 4 := by decide
    omega
  · simp only [gt_iff_lt, if_neg hp, apply_ite Node.type, apply_ite Node.id,
      apply_ite Node.label, ite_self]
    exact ⟨trivial, trivial, trivial, le_refl _, fun hplat => hplat⟩

/-- Witness for C7: the Company node "Nova" is upgraded to Platform by a
later Platform sighting, with its id recomputed. -/
theorem type_precedence_monotone_witness :
    dictGet stNova.normalized_to_label (normalize_entity_label (pyTrim entNova.name))
      = some "Nova" ∧
    dictGet stNova.label_to_node "Nova" = some ndNova ∧
    entityStep "c2" 2 stNova entNova = some stNova' ∧
    dictGet stNova'.label_to_node "Nova" = some ndNova' ∧
    (ndNova'.type = (if typePrec ndNova.type < typePrec entNova.type
        then entNova.type else ndNova.type) ∧
     ndNova'.id = (if typePrec ndNova.type < typePrec entNova.type
        then generate_id "Nova" entNova.type else ndNova.id) ∧
     ndNova'.label = ndNova.label ∧
     typePrec ndNova.type ≤ typePrec ndNova'.type ∧
     (ndNova.type = "Platform" → ndNova'.type = "Platform")) :=
  ⟨by rfl, by rfl, by rfl, by rfl,
   type_precedence_monotone "c2" 2 stNova stNova' entNova "Nova" ndNova ndNova'
     (by rfl) (by rfl) (by rfl) (by rfl)⟩

/-! ## Integration inference -/

theorem dictGet_dictSet_ne {α β : Type} [DecidableEq α]
    (d : PyDict α β) (k k' : α) (v : β) (h : ¬ k = k') :
    dictGet (dictSet d k v) k' = dictGet d k' := by
  induction d with
  | nil => simp [dictGet, dictSet, h]
  | cons p rest ih =>
    obtain ⟨k1, v1⟩ := p
    by_cases hk : k1 = k
    · subst hk; simp [dictGet, dictSet, h]
    · simp [dictGet, dictSet, hk, ih]

theorem dictGet_dictSet_isSome_iff {α β : Type} [DecidableEq α]
    (d : PyDict α β) (k k' : α) (v : β) :
    (dictGet (dictSet d k v) k').isSome = true ↔
      (k' = k ∨ (dictGet d k').isSome = true) := by
  by_cases hk : k = k'
  · subst hk; simp [dictGet_dictSet_self]
  · rw [dictGet_dictSet_ne d k k' v hk]
    constructor
    · exact Or.inr
    · rintro (h | h)
      · exact absurd h.symm hk
      · exact h

theorem foldlOpt_preserve {σ α : Type} (P : σ → Prop) (f : σ → α → Option σ)
    (hf : ∀ s a s', f s a = some s' → P s → P s') :
    ∀ (l : List α) (s s' : σ), foldlOpt f s l = some s' → P s → P s' := by
  intro l
  induction l with
  | nil =>
    intro s s' h hp
    obtain rfl := Option.some.inj h
    exact hp
  | cons a rest ih =>
    intro s s' h hp
    simp only [foldlOpt] at h
    cases hf0 : f s a with
    | none => rw [hf0] at h; exact absurd h (by simp)
    | some s1 =>
      rw [hf0] at h
      exact ih s1 s' h (hf s a s1 hf0 hp)

theorem resolve_after_update (st : BuildState) (c name canon nid tp : String)
    (hinv : chunkNamesResolve st) (st' : BuildState)
    (hch : st'.chunk_entities = dictSet st.chunk_entities c
      (((dictGet st.chunk_entities c).getD []) ++ [(tp, name)]))
    (hni : st'.name_to_id = dictSet (dictSet st.name_to_id name nid) canon nid) :
    chunkNamesResolve st' := by
  intro c' l hl pr hpr
  rw [hni]
  rw [hch] at hl
  by_cases hc : c = c'
  · subst hc
    rw [dictGet_dictSet_self] at hl
    obtain rfl := Option.some.inj hl
    rcases List.mem_append.mp hpr with hpr0 | hpr1
    · cases hget : dictGet st.chunk_entities c with
      | none => rw [hget] at hpr0; simp at hpr0
      | some l0 =>
        rw [hget] at hpr0
        simp only [Option.getD_some] at hpr0
        exact dictGet_dictSet_isSome (dictSet st.name_to_id name nid) canon pr.2 nid
          (dictGet_dictSet_isSome st.name_to_id name pr.2 nid (hinv c l0 hget pr hpr0))
    · have hpr2 : pr = (tp, name) := by simpa using hpr1
      subst hpr2
      exact dictGet_dictSet_isSome _ canon _ nid (by rw [dictGet_dictSet_self]; rfl)
  · rw [dictGet_dictSet_ne _ _ _ _ hc] at hl
    exact dictGet_dictSet_isSome _ canon _ nid
      (dictGet_dictSet_isSome _ name _ nid (hinv c' l hl pr hpr))

theorem entityStep_resolves (c : String) (pg : Int) (st st' : BuildState) (ent : EntityRec)
    (h : entityStep c pg st ent = some st') (hinv : chunkNamesResolve st) :
    chunkNamesResolve st' := by
  unfold entityStep at h
  dsimp only at h
  cases hcn : dictGet st.normalized_to_label (normalize_entity_label (pyTrim ent.name)) with
  | none =>
    rw [hcn] at h
    dsimp only at h
    unfold entityFinish at h
    dsimp only at h
    rw [dictGet_dictSet_self] at h
    dsimp only at h
    rw [dictGet_dictSet_self] at h
    dsimp only at h
    obtain rfl := Option.some.inj h
    exact resolve_after_update st c (pyTrim ent.name) (pyTrim ent.name)
      (generate_id (pyTrim ent.name) ent.type) ent.type hinv _ rfl rfl
  | some canon =>
    rw [hcn] at h
    dsimp only at h
    cases hnd : dictGet st.label_to_node canon with
    | none => rw [hnd] at h; exact absurd h (by simp)
    | some node =>
      rw [hnd] at h
      dsimp only at h
      unfold entityFinish at h
      dsimp only at h
      rw [hcn] at h
      dsimp only at h
      rw [dictGet_dictSet_self] at h
      dsimp only at h
      obtain rfl := Option.some.inj h
      exact resolve_after_update st c (pyTrim ent.name) canon _ ent.type hinv _ rfl rfl

theorem entityPass_resolves (extractions : List ExtractionTuple) (st : BuildState)
    (h : entityPass extractions ⟨[], [], [], [], []⟩ = some st) : chunkNamesResolve st := by
  have hbase : chunkNamesResolve ⟨[], [], [], [], []⟩ := by
    intro c l hl
    simp [dictGet] at hl
  refine foldlOpt_preserve chunkNamesResolve _ ?_ extractions _ st h hbase
  intro s t s' hstep hP
  exact foldlOpt_preserve chunkNamesResolve _
    (fun s1 a s1' h1 hp1 => entityStep_resolves t.1 t.2.1 s1 s1' a h1 hp1)
    t.2.2.entities s s' hstep hP

/-- C8: integration inference adds the `(service, platform,
integrated_with)` edge key for a tuple exactly when its chunk's entity
records contain exactly one Service and exactly one Platform, both names
resolve, the key is not already present, and the tuple's own relation
records contain an `integrated_with` relation; and after the entity pass
every recorded chunk-entity name resolves, so the resolvability
conditions hold throughout `build_graph`. -/
theorem integration_inference_characterization :
    (∀ (st : BuildState) (t : ExtractionTuple) (k : EdgeKey),
      (dictGet (integrationStep st t).edge_dict k).isSome = true ↔
      ((dictGet st.edge_dict k).isSome = true ∨
       ∃ s p sid pid,
         (((dictGet st.chunk_entities t.1).getD []).filter
           (fun q => decide (q.1 = "Service"))).map Prod.snd = [s] ∧
         (((dictGet st.chunk_entities t.1).getD []).filter
           (fun q => decide (q.1 = "Platform"))).map Prod.snd = [p] ∧
         truthyStr (dictGet st.name_to_id s) = some sid ∧
         truthyStr (dictGet st.name_to_id p) = some pid ∧
         k = (sid, pid, "integrated_with") ∧
         (dictGet st.edge_dict k).isSome = false ∧
         t.2.2.relations.any (fun r => decide (r.relation = "integrated_with")) = true)) ∧
    (∀ (extractions : List ExtractionTuple) (st : BuildState),
      entityPass extractions ⟨[], [], [], [], []⟩ = some st → chunkNamesResolve st) := by
  refine ⟨?_, entityPass_resolves⟩
  intro st t k
  unfold integrationStep
  dsimp only
  generalize hS : (((dictGet st.chunk_entities t.1).getD []).filter
      (fun q => decide (q.1 = "Service"))).map Prod.snd = S
  generalize hP : (((dictGet st.chunk_entities t.1).getD []).filter
      (fun q => decide (q.1 = "Platform"))).map Prod.snd = P
  rcases S with _ | ⟨s, _ | ⟨s2, srest⟩⟩
  · -- no Service entity
    dsimp only
    constructor
    · exact Or.inl
    · rintro (h | ⟨s', p', sid', pid', hS', hP', h3', h4', h5', h6', h7'⟩)
      · exact h
      · cases hS'
  · rcases P with _ | ⟨p, _ | ⟨p2, prest⟩⟩
    · -- no Platform entity
      dsimp only
      constructor
      · exact Or.inl
      · rintro (h | ⟨s', p', sid', pid', hS', hP', h3', h4', h5', h6', h7'⟩)
        · exact h
        · cases hP'
    · -- exactly one of each
      dsimp only
      cases hsid : truthyStr (dictGet st.name_to_id s) with
      | none =>
        dsimp only
        constructor
        · exact Or.inl
        · rintro (h | ⟨s', p', sid', pid', hS', hP', h3', h4', h5', h6', h7'⟩)
          · exact h
          · obtain rfl : s' = s := by simpa using hS'.symm
            rw [hsid] at h3'; cases h3'
      | some sid =>
        cases hpid : truthyStr (dictGet st.name_to_id p) with
        | none =>
          dsimp only
          constructor
          · exact Or.inl
          · rintro (h | ⟨s', p', sid', pid', hS', hP', h3', h4', h5', h6', h7'⟩)
            · exact h
            · obtain rfl : p' = p := by simpa using hP'.symm
              rw [hpid] at h4'; cases h4'
        | some pid =>
          dsimp only
          cases hdg : dictGet st.edge_dict (sid, pid, "integrated_with") with
          | none =>
            dsimp only [Option.isNone_none]
            by_cases hsig :
                t.2.2.relations.any (fun r => decide (r.relation = "integrated_with")) = true
            · rw [if_pos rfl, if_pos hsig]
              dsimp only
              constructor
              · intro hmem
                rw [dictGet_dictSet_isSome_iff] at hmem
                rcases hmem with hk | hold
                · refine Or.inr ⟨s, p, sid, pid, rfl, rfl, hsid, hpid, hk, ?_, hsig⟩
                  rw [hk, hdg]; rfl
                · exact Or.inl hold
              · rintro (h | ⟨s', p', sid', pid', hS', hP', h3', h4', h5', h6', h7'⟩)
                · rw [dictGet_dictSet_isSome_iff]; exact Or.inr h
                · obtain rfl : s' = s := by simpa using hS'.symm
                  obtain rfl : p' = p := by simpa using hP'.symm
                  rw [hsid] at h3'
                  obtain rfl := Option.some.inj h3'
                  rw [hpid] at h4'
                  obtain rfl := Option.some.inj h4'
                  rw [dictGet_dictSet_isSome_iff]
                  exact Or.inl h5'
            · rw [if_pos rfl, if_neg hsig]
              constructor
              · exact Or.inl
              · rintro (h | ⟨s', p', sid', pid', hS', hP', h3', h4', h5', h6', h7'⟩)
                · exact h
                · obtain rfl : s' = s := by simpa using hS'.symm
                  obtain rfl : p' = p := by simpa using hP'.symm
                  exact absurd h7' hsig
          | some e0 =>
            dsimp only [Option.isNone_some]
            rw [if_neg (by simp)]
            constructor
            · exact Or.inl
            · rintro (h | ⟨s', p', sid', pid', hS', hP', h3', h4', h5', h6', h7'⟩)
              · exact h
              · obtain rfl : s' = s := by simpa using hS'.symm
                obtain rfl : p' = p := by simpa using hP'.symm
                rw [hsid] at h3'
                obtain rfl := Option.some.inj h3'
                rw [hpid] at h4'
                obtain rfl := Option.some.inj h4'
                rw [h5', hdg] at h6'
                cases h6'
    · -- two or more Platform entities
      dsimp only
      constructor
      · exact Or.inl
      · rintro (h | ⟨s', p', sid', pid', hS', hP', h3', h4', h5', h6', h7'⟩)
        · exact h
        · simp at hP'
  · -- two or more Service entities
    dsimp only
    constructor
    · exact Or.inl
    · rintro (h | ⟨s', p', sid', pid', hS', hP', h3', h4', h5', h6', h7'⟩)
      · exact h
      · simp at hS'

/-- Witness for C8: on the one-Service/one-Platform chunk `exInt` the
entity-pass invariant holds and the step adds the
`(service_dataflow, platform_novacloud, integrated_with)` key. -/
theorem integration_inference_characterization_witness :
    (entityPass exInt ⟨[], [], [], [], []⟩ = some stInt ∧ chunkNamesResolve stInt) ∧
    (dictGet (integrationStep stInt
        ("c1", 1, ⟨[⟨"DataFlow", "Service", []⟩, ⟨"NovaCloud", "Platform", []⟩],
                   [⟨"DataFlow", "NovaCloud", "integrated_with"⟩], []⟩)).edge_dict
      ("service_dataflow", "platform_novacloud", "integrated_with")).isSome = true :=
  ⟨⟨by rfl, integration_inference_characterization.2 exInt stInt (by rfl)⟩,
   (integration_inference_characterization.1 stInt _ _).mpr
     (Or.inr ⟨"DataFlow", "NovaCloud", "service_dataflow", "platform_novacloud",
       by rfl, by rfl, by rfl, by rfl, rfl, by rfl, by rfl⟩)⟩

/-- C9 counterexample: `normalize_llm_graph` applies no relation-vocabulary
filter — the edge with the uncontrolled relation "related_to" in `gLlm`
survives to its output. -/
theorem normalize_llm_graph_keeps_uncontrolled_relation :
    ∃ e ∈ (normalize_llm_graph gLlm).edges, e.relation ∉ CONTROLLED_RELATIONS := by
  decide

theorem rewriteEdgesService_relation_mem (m : PyDict String String)
    (edges : List Edge) (e : Edge) (he : e ∈ rewriteEdgesService m edges) :
    ∃ e₀ ∈ edges, e₀.relation = e.relation := by
  simp only [rewriteEdgesService, List.mem_filterMap] at he
  obtain ⟨a, ha, hfa⟩ := he
  split at hfa
  · exact absurd hfa (by simp)
  · obtain rfl := Option.some.inj hfa
    exact ⟨a, ha, rfl⟩

theorem rewriteEdgesReclass_relation_mem (m : PyDict String String)
    (edges : List Edge) (e : Edge) (he : e ∈ rewriteEdgesReclass m edges) :
    ∃ e₀ ∈ edges, e₀.relation = e.relation := by
  simp only [rewriteEdgesReclass, List.mem_filterMap] at he
  obtain ⟨a, ha, hfa⟩ := he
  split at hfa
  · exact absurd hfa (by simp)
  · split at hfa
    · exact absurd hfa (by simp)
    · obtain rfl := Option.some.inj hfa
      exact ⟨a, ha, rfl⟩

/-- C9 amended: `normalize_llm_graph` never filters by relation — every
relation appearing on an output edge already appears on some input edge
(so an uncontrolled relation passes through; see the counterexample). -/
theorem normalize_llm_graph_relations_from_input (g : Graph) :
    ∀ e ∈ (normalize_llm_graph g).edges, ∃ e₀ ∈ g.edges, e₀.relation = e.relation := by
  intro e he
  simp only [normalize_llm_graph, sortEdges, dictValues] at he
  rw [(List.perm_insertionSort _ _).mem_iff] at he
  rcases List.mem_map.mp he with ⟨p, hp, rfl⟩
  rcases dedupEdges_core_mem _ _ _ hp with ⟨q, hq, _, _⟩ | ⟨e₀, he₀, _, h2⟩
  · simp at hq
  · have hrel : e₀.relation = p.2.relation := (core_eq_fields h2.symm).2.2
  -- e₀ comes from the FIX 3 filter over `llmEdges2`
    have he2 : e₀ ∈ llmEdges2 g ∧
        e₀.core ∉ eventMediated (eventNodeIds (llmReclass g).1) (llmEdges2 g) := by
      simpa [llmFinalEdges] using he₀
    obtain ⟨e₁, he₁, hrel1⟩ := rewriteEdgesReclass_relation_mem _ _ _ he2.1
    obtain ⟨e₂, he₂, hrel2⟩ := rewriteEdgesService_relation_mem _ _ _
      (by simpa [llmEdges1] using he₁)
    exact ⟨e₂, he₂, by rw [hrel2, hrel1, hrel]⟩

/-- Witness for the amended C9 theorem: the surviving "related_to" edge
of `gLlm`'s normalization carries a relation of some input edge. -/
theorem normalize_llm_graph_relations_from_input_witness :
    (⟨"company_alpha", "company_bravo", "related_to", [⟨"c1", 1⟩]⟩ : Edge)
      ∈ (normalize_llm_graph gLlm).edges ∧
    ∃ e₀ ∈ gLlm.edges, e₀.relation =
      (⟨"company_alpha", "company_bravo", "related_to", [⟨"c1", 1⟩]⟩ : Edge).relation :=
  ⟨by decide, normalize_llm_graph_relations_from_input gLlm _ (by decide)⟩
